import Mathlib

/-!
Verification development for the course-survival-probability repository.

The relational schema is embedded from `schema.sql`; the loader's
SQLite write semantics (plain INSERT for tables without a uniqueness
constraint, INSERT OR REPLACE keyed on the declared UNIQUE tuple for
tables with one) are modelled as list operations.  The analytics
formulas (midpoint percentile, OLS trend slope, composite field risk,
equity support label) are computed in the backend analytics engine,
which is documented in the spec and in `DataIntegrityPage.tsx`; they
are modelled here over ℚ.  The completion gauge and the heatmap
summary recomputation are embedded from `CompletionGauge.tsx` and
`HeatmapView.tsx`.
-/

namespace CourseSurvival

/-! ### Schema embedding (schema.sql) -/

/-- A table of the persisted SQLite schema: its name, columns, declared
primary key, and the column tuples carrying a UNIQUE constraint. -/
structure TableSchema where
  name : String
  columns : List String
  primaryKey : List String
  uniques : List (List String)
deriving DecidableEq, Repr

/-- `institutions` table from schema.sql (code TEXT UNIQUE). -/
def institutionsTable : TableSchema :=
  { name := "institutions"
  , columns := ["id", "code", "name", "state", "provider_type"]
  , primaryKey := ["id"]
  , uniques := [["code"]] }

/-- `institution_aliases` table from schema.sql: alias TEXT PRIMARY KEY. -/
def institutionAliasesTable : TableSchema :=
  { name := "institution_aliases"
  , columns := ["alias", "institution_id"]
  , primaryKey := ["alias"]
  , uniques := [] }

/-- `fields_of_education` table from schema.sql. -/
def fieldsOfEducationTable : TableSchema :=
  { name := "fields_of_education"
  , columns := ["id", "broad_field"]
  , primaryKey := ["id"]
  , uniques := [["broad_field"]] }

/-- `attrition_retention` table from schema.sql, with
UNIQUE(institution_id, year, student_type, measure). -/
def attritionRetentionTable : TableSchema :=
  { name := "attrition_retention"
  , columns := ["id", "institution_id", "year", "student_type", "measure",
                "rate", "source_file"]
  , primaryKey := ["id"]
  , uniques := [["institution_id", "year", "student_type", "measure"]] }

/-- `completion_rates` table from schema.sql, with
UNIQUE(institution_id, cohort_start, duration_years). -/
def completionRatesTable : TableSchema :=
  { name := "completion_rates"
  , columns := ["id", "institution_id", "cohort_start", "cohort_end",
                "duration_years", "completed_pct", "still_enrolled_pct",
                "dropped_out_pct", "never_returned_pct", "source_file"]
  , primaryKey := ["id"]
  , uniques := [["institution_id", "cohort_start", "duration_years"]] }

/-- `enrolments` table from schema.sql.  Note: the source declares no
UNIQUE constraint on this table. -/
def enrolmentsTable : TableSchema :=
  { name := "enrolments"
  , columns := ["id", "institution_id", "year", "field_id", "course_level",
                "student_type", "commencing", "headcount", "eftsl",
                "source_file"]
  , primaryKey := ["id"]
  , uniques := [] }

/-- `completions` table from schema.sql.  Note: the source declares no
UNIQUE constraint on this table. -/
def completionsTable : TableSchema :=
  { name := "completions"
  , columns := ["id", "institution_id", "year", "field_id", "course_level",
                "headcount", "source_file"]
  , primaryKey := ["id"]
  , uniques := [] }

/-- `ingested_files` table from schema.sql (filename TEXT UNIQUE). -/
def ingestedFilesTable : TableSchema :=
  { name := "ingested_files"
  , columns := ["id", "filename", "file_path", "ingested_at", "row_count",
                "section", "data_year"]
  , primaryKey := ["id"]
  , uniques := [["filename"]] }

/-- `course_level_mix` table from schema.sql, with
UNIQUE(institution_id, year, measure). -/
def courseLevelMixTable : TableSchema :=
  { name := "course_level_mix"
  , columns := ["id", "institution_id", "year", "measure",
                "postgrad_research", "postgrad_coursework", "bachelor",
                "sub_bachelor", "total", "source_file"]
  , primaryKey := ["id"]
  , uniques := [["institution_id", "year", "measure"]] }

/-- The five fact tables of the schema (spec §3). -/
def factTables : List TableSchema :=
  [attritionRetentionTable, completionRatesTable, enrolmentsTable,
   completionsTable, courseLevelMixTable]

/-- The full dimension key of each fact table (spec §3: institution,
year or cohort start + duration, and the categorical dimensions). -/
def factDimKey (tableName : String) : List String :=
  if tableName = "attrition_retention" then
    ["institution_id", "year", "student_type", "measure"]
  else if tableName = "completion_rates" then
    ["institution_id", "cohort_start", "duration_years"]
  else if tableName = "enrolments" then
    ["institution_id", "year", "field_id", "course_level", "student_type",
     "commencing"]
  else if tableName = "completions" then
    ["institution_id", "year", "field_id", "course_level"]
  else if tableName = "course_level_mix" then
    ["institution_id", "year", "measure"]
  else []

/-- Whether a table declares a UNIQUE constraint over its full
dimension key. -/
def fullDimKeyUnique (t : TableSchema) : Bool :=
  decide (factDimKey t.name ∈ t.uniques)

/-! ### Loader write semantics

SQLite `INSERT OR REPLACE` on a table whose uniqueness key matches the
inserted row's key deletes the conflicting row and writes the new one;
on a table with no uniqueness constraint it is a plain append. -/

section Loader

variable {Row Key : Type} [DecidableEq Key]

/-- One `INSERT OR REPLACE` into a table whose uniqueness key is
computed by `key`: rows with the same key are replaced. -/
def upsertRow (key : Row → Key) (db : List Row) (r : Row) : List Row :=
  db.filter (fun x => decide (key x ≠ key r)) ++ [r]

/-- Load a whole file of rows into a keyed table, row by row. -/
def loadKeyed (key : Row → Key) (db : List Row) (file : List Row) : List Row :=
  file.foldl (upsertRow key) db

/-- Load a whole file of rows into a table with no uniqueness
constraint: plain INSERT, i.e. append. -/
def loadAppend (db : List Row) (file : List Row) : List Row :=
  db ++ file

/-- Keys occurring in a file. -/
def fileKeys (key : Row → Key) (file : List Row) : List Key :=
  file.map key

end Loader

/-- A row of the `enrolments` table (sans the surrogate id). -/
structure EnrRow where
  institution_id : Int
  year : Int
  field_id : Option Int
  course_level : Option String
  student_type : Option String
  commencing : Option Int
  headcount : Option Int
  eftsl : Option ℚ
  source_file : Option String
deriving DecidableEq, Repr

/-- A row of the `attrition_retention` table (sans the surrogate id). -/
structure ARRow where
  institution_id : Int
  year : Int
  student_type : String
  measure : String
  rate : Option ℚ
  source_file : Option String
deriving DecidableEq, Repr

/-- The dimension key of an `attrition_retention` row, i.e. the tuple
under its UNIQUE constraint. -/
def arKey (r : ARRow) : Int × Int × String × String :=
  (r.institution_id, r.year, r.student_type, r.measure)

/-- A concrete enrolments row used to exhibit duplication. -/
def sampleEnrRow : EnrRow :=
  { institution_id := 3040
  , year := 2024
  , field_id := some 1
  , course_level := some "Bachelor"
  , student_type := some "domestic"
  , commencing := some 0
  , headcount := some 1200
  , eftsl := some (950 : ℚ)
  , source_file := some "section2_2024.xlsx" }

/-! ### Institution alias table

`institution_aliases` has `alias TEXT PRIMARY KEY`, so at most one row
per alias string can ever exist.  Modelled from the spec: the resolver
(`ingest.py`, not under src/) registers aliases and never overwrites an
existing one ("the alias table only grows, never silently
overwritten"), matching a plain INSERT that the PRIMARY KEY makes fail
silently on conflict (INSERT OR IGNORE). -/

/-- The alias table: rows of (normalised alias, institution id). -/
abbrev AliasTable : Type := List (String × Int)

/-- Register one alias.  The PRIMARY KEY on `alias` means a row whose
alias is already present is not inserted again. -/
def insertAlias (tbl : AliasTable) (a : String) (i : Int) : AliasTable :=
  if a ∈ tbl.map Prod.fst then tbl else tbl ++ [(a, i)]

/-- The store state reached from an empty alias table by a sequence of
alias registrations. -/
def aliasState (ops : List (String × Int)) : AliasTable :=
  ops.foldl (fun t p => insertAlias t p.1 p.2) []

/-! ### Analytics engine: midpoint percentile and risk level

Modelled from the spec: the percentile and risk-level computation lives
in the backend analytics engine (`backend/engine.py`, not under src/);
the spec and `DataIntegrityPage.tsx` document
percentile = (n_below + 0.5 × n_equal) / total_institutions × 100 and
the buckets [0,25)→Low, [25,50)→Medium, [50,75)→High, [75,100]→Very
High. -/

/-- Number of institutions with a strictly lower rate. -/
def countBelow (r : ℚ) (rates : List ℚ) : ℕ :=
  rates.countP (fun x => decide (x < r))

/-- Number of institutions with an equal rate. -/
def countEqual (r : ℚ) (rates : List ℚ) : ℕ :=
  rates.countP (fun x => decide (x = r))

/-- Midpoint percentile of rate `r` within the year's rates. -/
def midpointPercentile (r : ℚ) (rates : List ℚ) : ℚ :=
  (((countBelow r rates : ℚ) + (countEqual r rates : ℚ) / 2) /
    (rates.length : ℚ)) * 100

/-- The four risk levels of the attrition percentile. -/
inductive RiskLevel where
  | low
  | medium
  | high
  | veryHigh
deriving DecidableEq, Repr

/-- Risk level of a percentile. -/
def riskLevel (p : ℚ) : RiskLevel :=
  if p < 25 then .low
  else if p < 50 then .medium
  else if p < 75 then .high
  else .veryHigh

/-! ### Analytics engine: OLS trend slope and direction

Modelled from the spec: the trend computation lives in
`backend/engine.py` (not under src/); the spec and
`DataIntegrityPage.tsx` document an ordinary-least-squares slope
slope = Σ((year − mean_year)(rate − mean_rate)) / Σ((year − mean_year)²)
over the most recent up-to-5 points (minimum 2), with thresholds
±0.3 pp/yr; `TrendChart.tsx` carries the four direction values. -/

/-- Sum of `f` over a list of points. -/
def sumBy {α : Type} (f : α → ℚ) (pts : List α) : ℚ :=
  (pts.map f).sum

/-- Mean year of a series of points. -/
def meanYear (pts : List (ℚ × ℚ)) : ℚ :=
  sumBy (fun p => p.1) pts / (pts.length : ℚ)

/-- Mean rate of a series of points. -/
def meanRate (pts : List (ℚ × ℚ)) : ℚ :=
  sumBy (fun p => p.2) pts / (pts.length : ℚ)

/-- Ordinary-least-squares slope of (year, rate) points:
Σ((year − mean_year)(rate − mean_rate)) / Σ((year − mean_year)²). -/
def olsSlope (pts : List (ℚ × ℚ)) : ℚ :=
  sumBy (fun p => (p.1 - meanYear pts) * (p.2 - meanRate pts)) pts /
    sumBy (fun p => (p.1 - meanYear pts) ^ 2) pts

/-- The four trend directions (TrendChart.tsx: improving, stable,
worsening, unknown). -/
inductive TrendDirection where
  | improving
  | stable
  | worsening
  | unknown
deriving DecidableEq, Repr

/-- The most recent up-to-5 points of a year-ascending series. -/
def recentFive (series : List (ℚ × ℚ)) : List (ℚ × ℚ) :=
  series.drop (series.length - 5)

/-- Trend direction of a year-ascending attrition series. -/
def trendDirection (series : List (ℚ × ℚ)) : TrendDirection :=
  if (recentFive series).length < 2 then .unknown
  else if olsSlope (recentFive series) < -(3 / 10) then .improving
  else if olsSlope (recentFive series) ≤ 3 / 10 then .stable
  else .worsening

/-- A 5-point yearly series starting at year `t` with rates
`y0 … y4`. -/
def fivePoint (t y0 y1 y2 y3 y4 : ℚ) : List (ℚ × ℚ) :=
  [(t, y0), (t + 1, y1), (t + 2, y2), (t + 3, y3), (t + 4, y4)]

/-- Rates of a series, in order. -/
def ratesOf (series : List (ℚ × ℚ)) : List ℚ :=
  series.map Prod.snd

/-- A strictly increasing rate sequence. -/
def strictlyIncreasing (series : List (ℚ × ℚ)) : Prop :=
  List.Chain' (· < ·) (ratesOf series)

instance (series : List (ℚ × ℚ)) : Decidable (strictlyIncreasing series) :=
  inferInstanceAs (Decidable (List.Chain' _ _))

/-- The concrete strictly increasing series 10.0, 10.1, 10.2, 10.3,
10.4 over 2019–2023. -/
def slowRiseSeries : List (ℚ × ℚ) :=
  [(2019, 10), (2020, 101 / 10), (2021, 102 / 10), (2022, 103 / 10),
   (2023, 104 / 10)]

/-! ### Analytics engine: composite field risk

The composite formula is computed in `backend/engine.py` (not under
src/) and is modelled from the spec:
composite risk = attrition_rate × (1 − graduation_ratio / 100).
The tier thresholds are embedded from `RiskBar` in `HeatmapView.tsx`:
score < 10 low, score < 18 medium, else high. -/

/-- Composite field risk. -/
def compositeRisk (attritionRate gradRatio : ℚ) : ℚ :=
  attritionRate * (1 - gradRatio / 100)

/-- The three heatmap risk tiers ('low' | 'medium' | 'high'). -/
inductive RiskTier where
  | low
  | medium
  | high
deriving DecidableEq, Repr

/-- Tier of a composite risk score (RiskBar thresholds in
HeatmapView.tsx). -/
def riskTier (score : ℚ) : RiskTier :=
  if score < 10 then .low
  else if score < 18 then .medium
  else .high

/-! ### Analytics engine: equity support label

Modelled from the spec: the overall label is computed in
`backend/engine.py` (not under src/); the spec and
`DataIntegrityPage.tsx` document ≥70% of groups above average ⇒
Strong, 40–70% ⇒ Mixed, <40% ⇒ Weak; `EquityReport.tsx` renders the
label. -/

/-- Overall equity support label from the number of groups above the
national average and the total number of groups. -/
def overallLabel (above total : ℕ) : String :=
  if 7 / 10 ≤ (above : ℚ) / (total : ℚ) then "Strong"
  else if 4 / 10 ≤ (above : ℚ) / (total : ℚ) then "Mixed"
  else "Weak"

/-! ### Completion gauge (CompletionGauge.tsx) -/

/-- The completion data of the report (types.ts, Completion). -/
structure Completion where
  four_year_pct : Option ℚ
  six_year_pct : Option ℚ
  nine_year_pct : Option ℚ
  national_avg_four_year : Option ℚ
  still_enrolled_pct : Option ℚ
  dropped_out_pct : Option ℚ
  never_returned_pct : Option ℚ
deriving DecidableEq, Repr

/-- The headline gauge percentage:
`data.nine_year_pct ?? data.six_year_pct ?? data.four_year_pct`. -/
def gaugePct (d : Completion) : Option ℚ :=
  (d.nine_year_pct.orElse (fun _ => d.six_year_pct)).orElse
    (fun _ => d.four_year_pct)

/-- The gauge window label: 9-year if the nine-year rate is non-null,
else 6-year if the six-year rate is non-null, else 4-year. -/
def gaugeLabel (d : Completion) : String :=
  if d.nine_year_pct ≠ none then "9-year"
  else if d.six_year_pct ≠ none then "6-year"
  else "4-year"

/-! ### Heatmap state-filter summary (HeatmapView.tsx) -/

/-- One heatmap entry (types.ts, HeatmapEntry). -/
structure HeatmapEntry where
  institution_id : Int
  institution_name : String
  state : String
  attrition_rate : ℚ
  grad_ratio : Option ℚ
  composite_risk : ℚ
  risk_tier : RiskTier
deriving DecidableEq, Repr

/-- The summary fields recomputed by `displaySummary`. -/
structure HeatmapSummary where
  num_institutions : ℕ
  min_risk : ℚ
  max_risk : ℚ
  best_institution_name : String
  worst_institution_name : String
deriving DecidableEq, Repr

/-- `data.entries.filter((e) => e.state === stateFilter)`. -/
def filterByState (s : String) (es : List HeatmapEntry) : List HeatmapEntry :=
  es.filter (fun e => decide (e.state = s))

/-- Fold step of the best-entry reduce (strictly smaller risk wins,
earliest entry kept on ties). -/
def bestStep (best e : HeatmapEntry) : HeatmapEntry :=
  if e.composite_risk < best.composite_risk then e else best

/-- Fold step of the worst-entry reduce (strictly larger risk wins,
earliest entry kept on ties). -/
def worstStep (worst e : HeatmapEntry) : HeatmapEntry :=
  if e.composite_risk > worst.composite_risk then e else worst

/-- The recomputed summary when a state filter is active and the
filtered entry list is non-empty (HeatmapView.tsx, displaySummary).
`Math.min`/`Math.max` over the risks and the two `reduce` calls with
`filteredEntries[0]` as the initial accumulator are modelled by the
corresponding folds. -/
def displaySummary (s : String) (es : List HeatmapEntry) :
    Option HeatmapSummary :=
  match filterByState s es with
  | [] => none
  | e :: rest =>
    some
      { num_institutions := (e :: rest).length
      , min_risk := rest.foldl (fun a x => min a x.composite_risk)
          e.composite_risk
      , max_risk := rest.foldl (fun a x => max a x.composite_risk)
          e.composite_risk
      , best_institution_name :=
          ((e :: rest).foldl bestStep e).institution_name
      , worst_institution_name :=
          ((e :: rest).foldl worstStep e).institution_name }

/-- A concrete heatmap entry (New South Wales, risk 5). -/
def entryAlpha : HeatmapEntry :=
  { institution_id := 1, institution_name := "Alpha"
  , state := "New South Wales", attrition_rate := 12
  , grad_ratio := some 30, composite_risk := 5, risk_tier := .low }

/-- A concrete heatmap entry (New South Wales, risk 3). -/
def entryBeta : HeatmapEntry :=
  { institution_id := 2, institution_name := "Beta"
  , state := "New South Wales", attrition_rate := 10
  , grad_ratio := some 40, composite_risk := 3, risk_tier := .low }

/-- A concrete heatmap entry (Victoria, risk 9). -/
def entryGamma : HeatmapEntry :=
  { institution_id := 3, institution_name := "Gamma"
  , state := "Victoria", attrition_rate := 15
  , grad_ratio := some 20, composite_risk := 9, risk_tier := .low }

/-! ### Loader lemmas -/

section LoaderLemmas

variable {Row Key : Type} [DecidableEq Key]

theorem upsertRow_eq (key : Row → Key) (db : List Row) (r : Row) :
    upsertRow key db r = db.filter (fun x => decide (key x ≠ key r)) ++ [r] :=
  rfl

theorem loadKeyed_nil (key : Row → Key) (db : List Row) :
    loadKeyed key db [] = db :=
  rfl

theorem loadKeyed_cons (key : Row → Key) (db : List Row) (r : Row)
    (rest : List Row) :
    loadKeyed key db (r :: rest) = loadKeyed key (upsertRow key db r) rest :=
  rfl

/-- Every row present after loading came either from the prior database
or from the loaded file. -/
theorem mem_loadKeyed (key : Row → Key) :
    ∀ (file : List Row) (db : List Row) (x : Row),
      x ∈ loadKeyed key db file → x ∈ db ∨ x ∈ file := by
  intro file
  induction file with
  | nil =>
      intro db x hx
      exact Or.inl hx
  | cons r rest ih =>
      intro db x hx
      rw [loadKeyed_cons] at hx
      rcases ih (upsertRow key db r) x hx with h | h
      · rw [upsertRow_eq] at h
        rcases List.mem_append.mp h with h | h
        · exact Or.inl (List.mem_of_mem_filter h)
        · simp only [List.mem_singleton] at h
          subst h
          exact Or.inr (List.mem_cons_self _ _)
      · exact Or.inr (List.mem_cons_of_mem _ h)

/-- Normal form of loading a file: the surviving prior rows (those whose
key does not occur in the file) followed by the file's own net rows. -/
theorem loadKeyed_eq_filter_append (key : Row → Key) :
    ∀ (file : List Row) (db : List Row),
      loadKeyed key db file =
        db.filter (fun x => decide (key x ∉ fileKeys key file)) ++
          loadKeyed key [] file := by
  intro file
  induction file with
  | nil =>
      intro db
      simp [loadKeyed_nil, fileKeys]
  | cons r rest ih =>
      intro db
      rw [loadKeyed_cons, ih (upsertRow key db r), upsertRow_eq,
        List.filter_append, loadKeyed_cons, ih (upsertRow key [] r),
        upsertRow_eq]
      simp only [List.filter_nil, List.nil_append]
      rw [List.filter_filter]
      have hpred : ∀ x : Row,
          (decide (key x ∉ fileKeys key rest) && decide (key x ≠ key r)) =
            decide (key x ∉ fileKeys key (r :: rest)) := by
        intro x
        by_cases h1 : key x = key r
        · simp [fileKeys, h1]
        · by_cases h2 : key x ∈ fileKeys key rest
          · simp [fileKeys, h1, h2]
          · simp [fileKeys, h1, h2]
      rw [List.filter_congr (fun x _ => hpred x), List.append_assoc]

/-- Keys of rows produced by loading a file into an empty table all come
from the file. -/
theorem key_mem_of_mem_loadKeyed_nil (key : Row → Key) (file : List Row)
    (x : Row) (hx : x ∈ loadKeyed key ([] : List Row) file) :
    key x ∈ fileKeys key file := by
  rcases mem_loadKeyed key file [] x hx with h | h
  · cases h
  · exact List.mem_map_of_mem key h

/-- Loading the same file twice leaves the table exactly as after the
first load (idempotence of keyed loading). -/
theorem loadKeyed_idem (key : Row → Key) (db : List Row) (file : List Row) :
    loadKeyed key (loadKeyed key db file) file = loadKeyed key db file := by
  rw [loadKeyed_eq_filter_append key file (loadKeyed key db file),
    loadKeyed_eq_filter_append key file db, List.filter_append,
    List.filter_filter]
  have h1 : ∀ x : Row,
      (decide (key x ∉ fileKeys key file) &&
        decide (key x ∉ fileKeys key file)) =
        decide (key x ∉ fileKeys key file) := by
    intro x
    by_cases h : key x ∈ fileKeys key file <;> simp [h]
  rw [List.filter_congr (fun x _ => h1 x)]
  have h2 : (loadKeyed key ([] : List Row) file).filter
      (fun x => decide (key x ∉ fileKeys key file)) = [] := by
    rw [List.filter_eq_nil_iff]
    intro x hx
    have := key_mem_of_mem_loadKeyed_nil key file x hx
    simp [this]
  rw [h2]
  simp

/-- After a keyed load of a row, exactly that row occupies its key slot:
the later load replaces rather than duplicates. -/
theorem loadKeyed_replaces (key : Row → Key) (db : List Row) (r : Row) :
    (loadKeyed key db [r]).filter (fun x => decide (key x = key r)) = [r] := by
  show (upsertRow key db r).filter (fun x => decide (key x = key r)) = [r]
  rw [upsertRow_eq, List.filter_append, List.filter_filter]
  have h : ∀ x : Row,
      (decide (key x = key r) && decide (key x ≠ key r)) = false := by
    intro x
    by_cases hx : key x = key r <;> simp [hx]
  rw [List.filter_congr (fun x _ => h x)]
  simp

end LoaderLemmas

/-! ### C1: fact-table uniqueness keys -/

/-- C1 counterexample: the claim that every fact table of the persisted
schema carries a uniqueness constraint over its full dimension key is
false — `enrolments` and `completions` declare no UNIQUE constraint at
all, and re-inserting the same enrolments row leaves two copies in the
table. -/
theorem c1_uniqueness_counterexample :
    (¬ ∀ t ∈ factTables, fullDimKeyUnique t = true) ∧
    fullDimKeyUnique enrolmentsTable = false ∧
    fullDimKeyUnique completionsTable = false ∧
    loadAppend (loadAppend ([] : List EnrRow) [sampleEnrRow]) [sampleEnrRow] =
      [sampleEnrRow, sampleEnrRow] ∧
    (loadAppend ([] : List EnrRow) [sampleEnrRow]).length = 1 := by
  refine ⟨?_, ?_, ?_, rfl, rfl⟩ <;> decide

/-- C1 amended: the fact tables `attrition_retention`,
`completion_rates` and `course_level_mix` carry a uniqueness constraint
over their full dimension key, and for a table loaded through that key
re-ingesting the same file leaves an identical table and a later load
with the same key replaces the earlier row; `enrolments` and
`completions` declare no uniqueness constraint, and plain re-insertion
duplicates their rows. -/
theorem c1_keyed_tables_idempotent :
    (fullDimKeyUnique attritionRetentionTable = true ∧
     fullDimKeyUnique completionRatesTable = true ∧
     fullDimKeyUnique courseLevelMixTable = true ∧
     fullDimKeyUnique enrolmentsTable = false ∧
     fullDimKeyUnique completionsTable = false) ∧
    (∀ {Row Key : Type} [DecidableEq Key] (key : Row → Key)
       (db file : List Row),
       loadKeyed key (loadKeyed key db file) file = loadKeyed key db file) ∧
    (∀ {Row Key : Type} [DecidableEq Key] (key : Row → Key)
       (db : List Row) (r : Row),
       (loadKeyed key db [r]).filter (fun x => decide (key x = key r)) =
         [r]) ∧
    (∀ (db file : List EnrRow),
       (loadAppend (loadAppend db file) file).length =
         db.length + file.length + file.length) := by
  refine ⟨by decide, ?_, ?_, ?_⟩
  · intro Row Key _ key db file
    exact loadKeyed_idem key db file
  · intro Row Key _ key db r
    exact loadKeyed_replaces key db r
  · intro db file
    simp [loadAppend]
    omega

/-! ### C2: alias functionality -/

theorem insertAlias_keys_nodup (tbl : AliasTable) (a : String) (i : Int)
    (h : (tbl.map Prod.fst).Nodup) :
    ((insertAlias tbl a i).map Prod.fst).Nodup := by
  unfold insertAlias
  split
  · exact h
  · rename_i hmem
    rw [List.map_append]
    simp only [List.map_cons, List.map_nil]
    rw [List.nodup_append]
    refine ⟨h, List.nodup_singleton a, ?_⟩
    intro x hx hx1
    simp only [List.mem_singleton] at hx1
    subst hx1
    exact hmem hx

theorem aliasState_aux_keys_nodup :
    ∀ (ops : List (String × Int)) (tbl : AliasTable),
      (tbl.map Prod.fst).Nodup →
      ((ops.foldl (fun t p => insertAlias t p.1 p.2) tbl).map Prod.fst).Nodup := by
  intro ops
  induction ops with
  | nil => intro tbl h; exact h
  | cons p rest ih =>
      intro tbl h
      exact ih (insertAlias tbl p.1 p.2) (insertAlias_keys_nodup tbl p.1 p.2 h)

theorem aliasState_keys_nodup (ops : List (String × Int)) :
    ((aliasState ops).map Prod.fst).Nodup :=
  aliasState_aux_keys_nodup ops [] List.nodup_nil

theorem keys_nodup_functional :
    ∀ (l : List (String × Int)), (l.map Prod.fst).Nodup →
      ∀ (a : String) (i j : Int), (a, i) ∈ l → (a, j) ∈ l → i = j := by
  intro l
  induction l with
  | nil => intro _ a i j hi _; cases hi
  | cons hd tl ih =>
      intro hnd a i j hi hj
      simp only [List.map_cons, List.nodup_cons] at hnd
      rcases List.mem_cons.mp hi with hi1 | hi1 <;>
        rcases List.mem_cons.mp hj with hj1 | hj1
      · rw [← hi1] at hj1
        exact congrArg Prod.snd hj1.symm
      · exfalso
        subst hi1
        exact hnd.1 (List.mem_map.mpr ⟨(a, j), hj1, rfl⟩)
      · exfalso
        subst hj1
        exact hnd.1 (List.mem_map.mpr ⟨(a, i), hi1, rfl⟩)
      · exact ih hnd.2 a i j hi1 hj1

/-- C2: `institution_aliases` keys its rows on the alias string itself
(alias TEXT PRIMARY KEY), so in every store state reachable by
registering aliases, an alias maps to exactly one institution id. -/
theorem c2_alias_maps_to_one_institution :
    institutionAliasesTable.primaryKey = ["alias"] ∧
    ∀ (ops : List (String × Int)) (a : String) (i j : Int),
      (a, i) ∈ aliasState ops → (a, j) ∈ aliasState ops → i = j := by
  refine ⟨rfl, ?_⟩
  intro ops a i j hi hj
  exact keys_nodup_functional (aliasState ops) (aliasState_keys_nodup ops)
    a i j hi hj

/-- C2 witness: in the state reached by registering the same alias
twice with different targets, the alias still maps to a single id. -/
theorem c2_alias_maps_to_one_institution_witness : (1 : Int) = 1 :=
  c2_alias_maps_to_one_institution.2
    [("uni of x", 1), ("uni of x", 2)] "uni of x" 1 1
    (by decide) (by decide)

/-! ### C3, C4: midpoint percentile -/

theorem countBelow_add_countEqual_le_length (r : ℚ) (rates : List ℚ) :
    countBelow r rates + countEqual r rates ≤ rates.length := by
  induction rates with
  | nil => simp [countBelow, countEqual]
  | cons x l ih =>
      simp only [countBelow, countEqual, List.countP_cons, List.length_cons] at *
      by_cases h1 : x < r
      · have h2 : ¬x = r := ne_of_lt h1
        simp [h1, h2]
        omega
      · by_cases h2 : x = r
        · simp [h1, h2]
          omega
        · simp [h1, h2]
          omega

theorem countEqual_pos_of_mem (r : ℚ) (rates : List ℚ) (h : r ∈ rates) :
    1 ≤ countEqual r rates := by
  have : 0 < rates.countP (fun x => decide (x = r)) :=
    List.countP_pos.mpr ⟨r, h, by simp⟩
  simpa [countEqual] using this

theorem riskLevel_characterisation (p : ℚ) :
    (riskLevel p = .low ↔ p < 25) ∧
    (riskLevel p = .medium ↔ 25 ≤ p ∧ p < 50) ∧
    (riskLevel p = .high ↔ 50 ≤ p ∧ p < 75) ∧
    (riskLevel p = .veryHigh ↔ 75 ≤ p) := by
  unfold riskLevel
  split_ifs with h1 h2 h3 <;>
    refine ⟨?_, ?_, ?_, ?_⟩ <;> simp <;>
    first
      | linarith
      | (intro h; linarith)
      | (constructor <;> intro h <;> linarith)
      | (refine ⟨by linarith, by linarith⟩)

/-- C3: the percentile of an institution's latest-year rate among a
year's rates equals (strictly-below count + 0.5 × equal count) / total
× 100, lies strictly between 0 and 100, and the risk level buckets are
Low on [0,25), Medium on [25,50), High on [50,75) and Very High on
[75,100]. -/
theorem c3_percentile_and_risk (rates : List ℚ) (r : ℚ) (hr : r ∈ rates) :
    midpointPercentile r rates =
      ((countBelow r rates : ℚ) + (1 / 2) * (countEqual r rates : ℚ)) /
        (rates.length : ℚ) * 100 ∧
    0 < midpointPercentile r rates ∧
    midpointPercentile r rates < 100 ∧
    (riskLevel (midpointPercentile r rates) = .low ↔
      midpointPercentile r rates < 25) ∧
    (riskLevel (midpointPercentile r rates) = .medium ↔
      25 ≤ midpointPercentile r rates ∧ midpointPercentile r rates < 50) ∧
    (riskLevel (midpointPercentile r rates) = .high ↔
      50 ≤ midpointPercentile r rates ∧ midpointPercentile r rates < 75) ∧
    (riskLevel (midpointPercentile r rates) = .veryHigh ↔
      75 ≤ midpointPercentile r rates) := by
  have hn : 0 < rates.length := List.length_pos.mpr (List.ne_nil_of_mem hr)
  have hnq : (0 : ℚ) < (rates.length : ℚ) := by exact_mod_cast hn
  have hcb : (0 : ℚ) ≤ (countBelow r rates : ℚ) := by positivity
  have hce : (1 : ℚ) ≤ (countEqual r rates : ℚ) := by
    exact_mod_cast countEqual_pos_of_mem r rates hr
  have hsum : (countBelow r rates : ℚ) + (countEqual r rates : ℚ) ≤
      (rates.length : ℚ) := by
    exact_mod_cast countBelow_add_countEqual_le_length r rates
  have hform : midpointPercentile r rates =
      ((countBelow r rates : ℚ) + (1 / 2) * (countEqual r rates : ℚ)) /
        (rates.length : ℚ) * 100 := by
    unfold midpointPercentile
    ring
  have hpos : 0 < midpointPercentile r rates := by
    rw [hform]
    have : (0 : ℚ) <
        (countBelow r rates : ℚ) + (1 / 2) * (countEqual r rates : ℚ) := by
      linarith
    positivity
  have hlt : midpointPercentile r rates < 100 := by
    rw [hform, mul_comm,
      mul_lt_iff_lt_one_right (by norm_num : (0 : ℚ) < 100),
      div_lt_one hnq]
    linarith
  obtain ⟨hlow, hmed, hhigh, hvh⟩ :=
    riskLevel_characterisation (midpointPercentile r rates)
  exact ⟨hform, hpos, hlt, hlow, hmed, hhigh, hvh⟩

/-- C3 witness: among the rates 3, 5, 5, 8 the rate 5 sits at the 50th
percentile, so its percentile is positive. -/
theorem c3_percentile_and_risk_witness :
    0 < midpointPercentile 5 [3, 5, 5, 8] :=
  (c3_percentile_and_risk [3, 5, 5, 8] 5 (by norm_num)).2.1

theorem countBelow_add_countEqual_le_countBelow (r1 r2 : ℚ) (h : r1 < r2)
    (rates : List ℚ) :
    countBelow r1 rates + countEqual r1 rates ≤ countBelow r2 rates := by
  induction rates with
  | nil => simp [countBelow, countEqual]
  | cons x l ih =>
      simp only [countBelow, countEqual, List.countP_cons] at *
      by_cases h1 : x < r1
      · have h2 : ¬x = r1 := ne_of_lt h1
        have h3 : x < r2 := lt_trans h1 h
        simp [h1, h2, h3]
        omega
      · by_cases h2 : x = r1
        · simp [h1, h2, h]
          omega
        · by_cases h3 : x < r2 <;> simp [h1, h2, h3] <;> omega

theorem midpointPercentile_mono (rates : List ℚ) (r1 r2 : ℚ) (h : r1 ≤ r2) :
    midpointPercentile r1 rates ≤ midpointPercentile r2 rates := by
  rcases eq_or_lt_of_le h with rfl | hlt
  · exact le_refl _
  cases rates with
  | nil => simp [midpointPercentile, countBelow, countEqual]
  | cons x l =>
      have hnq : (0 : ℚ) < ((x :: l).length : ℚ) := by
        have : 0 < (x :: l).length := List.length_pos.mpr (by simp)
        exact_mod_cast this
      have hkey : (countBelow r1 (x :: l) : ℚ) + (countEqual r1 (x :: l) : ℚ) ≤
          (countBelow r2 (x :: l) : ℚ) := by
        exact_mod_cast countBelow_add_countEqual_le_countBelow r1 r2 hlt (x :: l)
      have he1 : (0 : ℚ) ≤ (countEqual r1 (x :: l) : ℚ) := by positivity
      have he2 : (0 : ℚ) ≤ (countEqual r2 (x :: l) : ℚ) := by positivity
      unfold midpointPercentile
      have hnum : (countBelow r1 (x :: l) : ℚ) + (countEqual r1 (x :: l) : ℚ) / 2 ≤
          (countBelow r2 (x :: l) : ℚ) + (countEqual r2 (x :: l) : ℚ) / 2 := by
        linarith
      have hdiv := (div_le_div_right hnq).mpr hnum
      exact mul_le_mul_of_nonneg_right hdiv (by norm_num)

/-- C4: the midpoint percentile is monotone in the rate — an
institution whose rate is strictly higher than every other
institution's never receives a lower percentile than an institution
with a lower rate. -/
theorem c4_percentile_monotone (rates : List ℚ) (a b : ℚ)
    (ha : a ∈ rates) (hb : b ∈ rates)
    (hmax : ∀ x ∈ rates, x ≠ a → x < a) (hba : b < a) :
    midpointPercentile b rates ≤ midpointPercentile a rates :=
  midpointPercentile_mono rates b a (le_of_lt hba)

/-- C4 witness: with rates 10 and 20, the top institution's percentile
dominates the lower one's. -/
theorem c4_percentile_monotone_witness :
    midpointPercentile 10 [10, 20] ≤ midpointPercentile 20 [10, 20] :=
  c4_percentile_monotone [10, 20] 20 10 (by norm_num) (by norm_num)
    (by
      intro x hx hne
      rcases List.mem_cons.mp hx with h | h
      · rw [h]; norm_num
      · simp only [List.mem_singleton] at h
        exact absurd h hne)
    (by norm_num)

/-! ### C5, C6: OLS trend slope and direction -/

theorem recentFive_length (series : List (ℚ × ℚ)) :
    (recentFive series).length = min series.length 5 := by
  unfold recentFive
  rw [List.length_drop]
  omega

/-- C5: the trend direction is computed from the OLS slope over the
most recent up-to-5 points of the series; with fewer than 2 points it
is unknown, and with at least 2 points the slope thresholds −0.3 and
+0.3 separate Improving, Stable and Worsening. -/
theorem c5_trend_direction (series : List (ℚ × ℚ)) :
    (series.length < 2 → trendDirection series = .unknown) ∧
    (2 ≤ series.length →
      (recentFive series).length = min series.length 5 ∧
      (trendDirection series = .improving ↔
        olsSlope (recentFive series) < -(3 / 10)) ∧
      (trendDirection series = .stable ↔
        -(3 / 10) ≤ olsSlope (recentFive series) ∧
          olsSlope (recentFive series) ≤ 3 / 10) ∧
      (trendDirection series = .worsening ↔
        3 / 10 < olsSlope (recentFive series))) := by
  have hlen := recentFive_length series
  constructor
  · intro h2
    have : (recentFive series).length < 2 := by omega
    unfold trendDirection
    simp [this]
  · intro h2
    have hge : ¬(recentFive series).length < 2 := by omega
    refine ⟨hlen, ?_, ?_, ?_⟩ <;>
      (unfold trendDirection; split_ifs with hga hgb hgc <;> simp_all <;> linarith)

/-- C5 witness: a two-point series rising by one point per year has
slope above 0.3 and is classified Worsening. -/
theorem c5_trend_direction_witness :
    trendDirection [((0 : ℚ), (0 : ℚ)), (1, 1)] = .worsening :=
  (((c5_trend_direction [((0 : ℚ), (0 : ℚ)), (1, 1)]).2 (by norm_num)).2.2.2).mpr
    (by norm_num [recentFive, olsSlope, meanYear, meanRate, sumBy])

theorem recentFive_slowRise : recentFive slowRiseSeries = slowRiseSeries := rfl

theorem olsSlope_slowRise : olsSlope slowRiseSeries = 1 / 10 := by
  norm_num [slowRiseSeries, olsSlope, meanYear, meanRate, sumBy]

/-- C6 counterexample: the series 10.0, 10.1, 10.2, 10.3, 10.4 over
2019–2023 is strictly increasing at every step, yet its OLS slope is
0.1 ≤ 0.3 and its direction is Stable, not Worsening. -/
theorem c6_strict_increase_counterexample :
    strictlyIncreasing slowRiseSeries ∧
    slowRiseSeries.length = 5 ∧
    olsSlope (recentFive slowRiseSeries) = 1 / 10 ∧
    trendDirection slowRiseSeries = .stable ∧
    trendDirection slowRiseSeries ≠ .worsening := by
  have hs : olsSlope (recentFive slowRiseSeries) = 1 / 10 := by
    rw [recentFive_slowRise]
    exact olsSlope_slowRise
  have hdir : trendDirection slowRiseSeries = .stable := by
    unfold trendDirection
    rw [recentFive_slowRise, olsSlope_slowRise]
    norm_num [slowRiseSeries]
  refine ⟨?_, rfl, hs, hdir, ?_⟩
  · unfold strictlyIncreasing ratesOf slowRiseSeries
    norm_num
  · rw [hdir]
    intro hcontra
    cases hcontra

theorem olsSlope_fivePoint (t y0 y1 y2 y3 y4 : ℚ) :
    olsSlope (fivePoint t y0 y1 y2 y3 y4) =
      (2 * (y4 - y0) + (y3 - y1)) / 10 := by
  have hx : meanYear (fivePoint t y0 y1 y2 y3 y4) = t + 2 := by
    unfold meanYear fivePoint sumBy
    norm_num
    ring
  have hy : meanRate (fivePoint t y0 y1 y2 y3 y4) =
      (y0 + y1 + y2 + y3 + y4) / 5 := by
    unfold meanRate fivePoint sumBy
    norm_num
    ring
  unfold olsSlope
  rw [hx, hy]
  unfold fivePoint sumBy
  norm_num
  ring_nf

/-- C6 amended: a 5-point yearly series whose rate rises by more than
0.3 points each year has OLS slope above 0.3 and direction Worsening;
one falling by more than 0.3 each year has slope below −0.3 and
direction Improving; a constant series has slope 0 and direction
Stable; a merely strictly increasing series is only guaranteed a
positive slope (it can be Stable, as the counterexample shows). -/
theorem c6_trend_sign_amended (t y0 y1 y2 y3 y4 : ℚ) :
    ((3 / 10 < y1 - y0 ∧ 3 / 10 < y2 - y1 ∧ 3 / 10 < y3 - y2 ∧
        3 / 10 < y4 - y3) →
      3 / 10 < olsSlope (fivePoint t y0 y1 y2 y3 y4) ∧
      trendDirection (fivePoint t y0 y1 y2 y3 y4) = .worsening) ∧
    ((3 / 10 < y0 - y1 ∧ 3 / 10 < y1 - y2 ∧ 3 / 10 < y2 - y3 ∧
        3 / 10 < y3 - y4) →
      olsSlope (fivePoint t y0 y1 y2 y3 y4) < -(3 / 10) ∧
      trendDirection (fivePoint t y0 y1 y2 y3 y4) = .improving) ∧
    ((y1 = y0 ∧ y2 = y0 ∧ y3 = y0 ∧ y4 = y0) →
      olsSlope (fivePoint t y0 y1 y2 y3 y4) = 0 ∧
      trendDirection (fivePoint t y0 y1 y2 y3 y4) = .stable) ∧
    ((y0 < y1 ∧ y1 < y2 ∧ y2 < y3 ∧ y3 < y4) →
      0 < olsSlope (fivePoint t y0 y1 y2 y3 y4)) := by
  have hslope := olsSlope_fivePoint t y0 y1 y2 y3 y4
  have hrec : recentFive (fivePoint t y0 y1 y2 y3 y4) =
      fivePoint t y0 y1 y2 y3 y4 := rfl
  have hlen5 : ¬(fivePoint t y0 y1 y2 y3 y4).length < 2 := by
    unfold fivePoint
    norm_num
  refine ⟨?_, ?_, ?_, ?_⟩
  · rintro ⟨h1, h2, h3, h4⟩
    have hgt : 3 / 10 < olsSlope (fivePoint t y0 y1 y2 y3 y4) := by
      rw [hslope, lt_div_iff (by norm_num : (0 : ℚ) < 10)]
      linarith
    refine ⟨hgt, ?_⟩
    unfold trendDirection
    rw [hrec]
    split_ifs <;> first | rfl | linarith
  · rintro ⟨h1, h2, h3, h4⟩
    have hlt : olsSlope (fivePoint t y0 y1 y2 y3 y4) < -(3 / 10) := by
      rw [hslope, div_lt_iff (by norm_num : (0 : ℚ) < 10)]
      linarith
    refine ⟨hlt, ?_⟩
    unfold trendDirection
    rw [hrec]
    split_ifs <;> first | rfl | linarith
  · rintro ⟨h1, h2, h3, h4⟩
    have hz : olsSlope (fivePoint t y0 y1 y2 y3 y4) = 0 := by
      rw [hslope, h1, h3, h4]
      norm_num
    refine ⟨hz, ?_⟩
    unfold trendDirection
    rw [hrec]
    split_ifs <;> first | rfl | linarith
  · rintro ⟨h1, h2, h3, h4⟩
    rw [hslope, lt_div_iff (by norm_num : (0 : ℚ) < 10)]
    linarith

/-- C6 amended witness: the series 10.0, 10.4, 10.8, 11.2, 11.6 rises
by 0.4 points per year, and its direction is Worsening. -/
theorem c6_trend_sign_amended_witness :
    3 / 10 < olsSlope (fivePoint 2019 10 (52 / 5) (54 / 5) (56 / 5) (58 / 5)) ∧
    trendDirection (fivePoint 2019 10 (52 / 5) (54 / 5) (56 / 5) (58 / 5)) =
      .worsening :=
  (c6_trend_sign_amended 2019 10 (52 / 5) (54 / 5) (56 / 5) (58 / 5)).1
    ⟨by norm_num, by norm_num, by norm_num, by norm_num⟩

/-! ### C7: composite field risk -/

/-- C7: composite field risk is attrition_rate × (1 − graduation_ratio
/ 100), the tiers are Low below 10, Medium on [10,18) and High at or
above 18, and attrition 20% with graduation ratio 30% scores 14.0 in
the Medium tier. -/
theorem c7_composite_risk :
    compositeRisk 20 30 = 14 ∧
    riskTier (compositeRisk 20 30) = .medium ∧
    (∀ s : ℚ, riskTier s = .low ↔ s < 10) ∧
    (∀ s : ℚ, riskTier s = .medium ↔ 10 ≤ s ∧ s < 18) ∧
    (∀ s : ℚ, riskTier s = .high ↔ 18 ≤ s) := by
  have hval : compositeRisk 20 30 = 14 := by
    unfold compositeRisk
    norm_num
  have hchar : ∀ s : ℚ,
      (riskTier s = .low ↔ s < 10) ∧
      (riskTier s = .medium ↔ 10 ≤ s ∧ s < 18) ∧
      (riskTier s = .high ↔ 18 ≤ s) := by
    intro s
    unfold riskTier
    split_ifs with h1 h2 <;>
      refine ⟨?_, ?_, ?_⟩ <;> simp <;>
      first
        | linarith
        | (intro h; linarith)
        | (constructor <;> intro h <;> linarith)
        | (refine ⟨by linarith, by linarith⟩)
  refine ⟨hval, ?_, fun s => (hchar s).1, fun s => (hchar s).2.1,
    fun s => (hchar s).2.2⟩
  rw [hval]
  exact (hchar 14).2.1.mpr (by norm_num)

/-! ### C8: equity support label -/

/-- C8: the overall equity support label is Strong when at least 70%
of groups are above the national average, Mixed from 40% up to 70%,
and Weak below 40%; 4 of 6 groups gives Mixed and 5 of 6 gives
Strong. -/
theorem c8_equity_support_label :
    overallLabel 4 6 = "Mixed" ∧
    overallLabel 5 6 = "Strong" ∧
    (∀ a t : ℕ,
      (overallLabel a t = "Strong" ↔ 7 / 10 ≤ (a : ℚ) / (t : ℚ)) ∧
      (overallLabel a t = "Mixed" ↔
        4 / 10 ≤ (a : ℚ) / (t : ℚ) ∧ (a : ℚ) / (t : ℚ) < 7 / 10) ∧
      (overallLabel a t = "Weak" ↔ (a : ℚ) / (t : ℚ) < 4 / 10)) := by
  have hchar : ∀ a t : ℕ,
      (overallLabel a t = "Strong" ↔ 7 / 10 ≤ (a : ℚ) / (t : ℚ)) ∧
      (overallLabel a t = "Mixed" ↔
        4 / 10 ≤ (a : ℚ) / (t : ℚ) ∧ (a : ℚ) / (t : ℚ) < 7 / 10) ∧
      (overallLabel a t = "Weak" ↔ (a : ℚ) / (t : ℚ) < 4 / 10) := by
    intro a t
    unfold overallLabel
    split_ifs with h1 h2 <;>
      refine ⟨?_, ?_, ?_⟩ <;>
      simp only [String.reduceEq, true_iff, false_iff, iff_true, iff_false,
        not_and, not_lt, not_le] <;>
      first
        | rfl
        | linarith
        | (intro h; linarith)
        | (refine ⟨by linarith, by linarith⟩)
  refine ⟨?_, ?_, hchar⟩
  · exact (hchar 4 6).2.1.mpr (by norm_num)
  · exact (hchar 5 6).1.mpr (by norm_num)

/-! ### C9: completion gauge -/

/-- C9: the completion gauge headline is the nine-year rate when
present, else the six-year rate, else the four-year rate; the window
label names exactly the window whose rate is displayed, and the gauge
shows N/A precisely when all three rates are null. -/
theorem c9_completion_gauge (d : Completion) :
    (gaugePct d = none ↔
      d.nine_year_pct = none ∧ d.six_year_pct = none ∧
        d.four_year_pct = none) ∧
    (∀ p : ℚ, d.nine_year_pct = some p →
      gaugePct d = some p ∧ gaugeLabel d = "9-year") ∧
    (d.nine_year_pct = none → ∀ p : ℚ, d.six_year_pct = some p →
      gaugePct d = some p ∧ gaugeLabel d = "6-year") ∧
    (d.nine_year_pct = none → d.six_year_pct = none →
      ∀ p : ℚ, d.four_year_pct = some p →
      gaugePct d = some p ∧ gaugeLabel d = "4-year") := by
  rcases d with ⟨f4, f6, f9, na, se, dr, nr⟩
  cases f9 <;> cases f6 <;> cases f4 <;>
    simp [gaugePct, gaugeLabel, Option.orElse]

/-- C9 witness: with a null nine-year rate and a 63% six-year rate the
gauge shows 63% under the 6-year label. -/
theorem c9_completion_gauge_witness :
    gaugePct
        { four_year_pct := some 42, six_year_pct := some 63
        , nine_year_pct := none, national_avg_four_year := none
        , still_enrolled_pct := none, dropped_out_pct := none
        , never_returned_pct := none } = some 63 ∧
      gaugeLabel
        { four_year_pct := some 42, six_year_pct := some 63
        , nine_year_pct := none, national_avg_four_year := none
        , still_enrolled_pct := none, dropped_out_pct := none
        , never_returned_pct := none } = "6-year" :=
  (c9_completion_gauge
      { four_year_pct := some 42, six_year_pct := some 63
      , nine_year_pct := none, national_avg_four_year := none
      , still_enrolled_pct := none, dropped_out_pct := none
      , never_returned_pct := none }).2.2.1 rfl 63 rfl

/-! ### C10: heatmap filtered summary -/

theorem foldl_min_le_init (l : List HeatmapEntry) :
    ∀ a : ℚ, l.foldl (fun b x => min b x.composite_risk) a ≤ a := by
  induction l with
  | nil => intro a; exact le_refl a
  | cons x l ih =>
      intro a
      exact le_trans (ih (min a x.composite_risk)) (min_le_left _ _)

theorem foldl_min_le_mem (l : List HeatmapEntry) :
    ∀ (a : ℚ) (e : HeatmapEntry), e ∈ l →
      l.foldl (fun b x => min b x.composite_risk) a ≤ e.composite_risk := by
  induction l with
  | nil => intro a e he; cases he
  | cons x l ih =>
      intro a e he
      rcases List.mem_cons.mp he with rfl | he1
      · exact le_trans (foldl_min_le_init l _) (min_le_right _ _)
      · exact ih _ e he1

theorem foldl_max_init_le (l : List HeatmapEntry) :
    ∀ a : ℚ, a ≤ l.foldl (fun b x => max b x.composite_risk) a := by
  induction l with
  | nil => intro a; exact le_refl a
  | cons x l ih =>
      intro a
      exact le_trans (le_max_left _ _) (ih (max a x.composite_risk))

theorem foldl_max_mem_le (l : List HeatmapEntry) :
    ∀ (a : ℚ) (e : HeatmapEntry), e ∈ l →
      e.composite_risk ≤ l.foldl (fun b x => max b x.composite_risk) a := by
  induction l with
  | nil => intro a e he; cases he
  | cons x l ih =>
      intro a e he
      rcases List.mem_cons.mp he with rfl | he1
      · exact le_trans (le_max_right _ _) (foldl_max_init_le l _)
      · exact ih _ e he1

theorem foldl_bestStep_mem (l : List HeatmapEntry) :
    ∀ b : HeatmapEntry, l.foldl bestStep b = b ∨ l.foldl bestStep b ∈ l := by
  induction l with
  | nil => intro b; exact Or.inl rfl
  | cons x l ih =>
      intro b
      rw [List.foldl_cons]
      rcases ih (bestStep b x) with h | h
      · rw [h]
        unfold bestStep
        split_ifs
        · exact Or.inr (List.mem_cons_self _ _)
        · exact Or.inl rfl
      · exact Or.inr (List.mem_cons_of_mem _ h)

theorem foldl_worstStep_mem (l : List HeatmapEntry) :
    ∀ b : HeatmapEntry, l.foldl worstStep b = b ∨ l.foldl worstStep b ∈ l := by
  induction l with
  | nil => intro b; exact Or.inl rfl
  | cons x l ih =>
      intro b
      rw [List.foldl_cons]
      rcases ih (worstStep b x) with h | h
      · rw [h]
        unfold worstStep
        split_ifs
        · exact Or.inr (List.mem_cons_self _ _)
        · exact Or.inl rfl
      · exact Or.inr (List.mem_cons_of_mem _ h)

theorem bestStep_risk (b x : HeatmapEntry) :
    (bestStep b x).composite_risk = min b.composite_risk x.composite_risk := by
  unfold bestStep
  split_ifs with h
  · exact (min_eq_right (le_of_lt h)).symm
  · exact (min_eq_left (not_lt.mp h)).symm

theorem worstStep_risk (b x : HeatmapEntry) :
    (worstStep b x).composite_risk = max b.composite_risk x.composite_risk := by
  unfold worstStep
  split_ifs with h
  · exact (max_eq_right (le_of_lt h)).symm
  · exact (max_eq_left (not_lt.mp h)).symm

theorem foldl_bestStep_risk (l : List HeatmapEntry) :
    ∀ b : HeatmapEntry,
      (l.foldl bestStep b).composite_risk =
        l.foldl (fun a x => min a x.composite_risk) b.composite_risk := by
  induction l with
  | nil => intro b; rfl
  | cons x l ih =>
      intro b
      rw [List.foldl_cons, List.foldl_cons, ih (bestStep b x), bestStep_risk]

theorem foldl_worstStep_risk (l : List HeatmapEntry) :
    ∀ b : HeatmapEntry,
      (l.foldl worstStep b).composite_risk =
        l.foldl (fun a x => max a x.composite_risk) b.composite_risk := by
  induction l with
  | nil => intro b; rfl
  | cons x l ih =>
      intro b
      rw [List.foldl_cons, List.foldl_cons, ih (worstStep b x), worstStep_risk]

theorem bestStep_self (e : HeatmapEntry) : bestStep e e = e := by
  unfold bestStep
  simp

theorem worstStep_self (e : HeatmapEntry) : worstStep e e = e := by
  unfold worstStep
  simp

/-- C10: when a state filter leaves a non-empty entry list, the
recomputed summary counts exactly the filtered entries, its min and
max risks bound every filtered entry's composite risk and are attained,
and the best and worst institution names belong to entries attaining
the minimum and maximum respectively. -/
theorem c10_heatmap_filtered_summary (s : String) (es : List HeatmapEntry)
    (sm : HeatmapSummary) (h : displaySummary s es = some sm) :
    sm.num_institutions = (filterByState s es).length ∧
    (∀ e ∈ filterByState s es,
      sm.min_risk ≤ e.composite_risk ∧ e.composite_risk ≤ sm.max_risk) ∧
    (∃ e ∈ filterByState s es,
      e.composite_risk = sm.min_risk ∧
      e.institution_name = sm.best_institution_name) ∧
    (∃ e ∈ filterByState s es,
      e.composite_risk = sm.max_risk ∧
      e.institution_name = sm.worst_institution_name) := by
  unfold displaySummary at h
  cases hfs : filterByState s es with
  | nil =>
      rw [hfs] at h
      cases h
  | cons e rest =>
      rw [hfs] at h
      simp only [Option.some.injEq] at h
      have hb0 : (e :: rest).foldl bestStep e = rest.foldl bestStep e := by
        rw [List.foldl_cons, bestStep_self]
      have hw0 : (e :: rest).foldl worstStep e = rest.foldl worstStep e := by
        rw [List.foldl_cons, worstStep_self]
      refine ⟨?_, ?_, ?_, ?_⟩
      · rw [← h]
      · intro x hx
        rw [← h]
        rcases List.mem_cons.mp hx with rfl | hx1
        · exact ⟨foldl_min_le_init rest _, foldl_max_init_le rest _⟩
        · exact ⟨foldl_min_le_mem rest _ x hx1, foldl_max_mem_le rest _ x hx1⟩
      · refine ⟨rest.foldl bestStep e, ?_, ?_, ?_⟩
        · rcases foldl_bestStep_mem rest e with h1 | h1
          · rw [h1]
            exact List.mem_cons_self _ _
          · exact List.mem_cons_of_mem _ h1
        · rw [← h]
          exact foldl_bestStep_risk rest e
        · rw [← h, hb0]
      · refine ⟨rest.foldl worstStep e, ?_, ?_, ?_⟩
        · rcases foldl_worstStep_mem rest e with h1 | h1
          · rw [h1]
            exact List.mem_cons_self _ _
          · exact List.mem_cons_of_mem _ h1
        · rw [← h]
          exact foldl_worstStep_risk rest e
        · rw [← h, hw0]

/-- C10 witness: filtering three entries down to the two New South
Wales ones yields a summary counting both of them. -/
theorem c10_heatmap_filtered_summary_witness :
    ({ num_institutions := 2, min_risk := 3, max_risk := 5
     , best_institution_name := "Beta"
     , worst_institution_name := "Alpha" } : HeatmapSummary).num_institutions =
      (filterByState "New South Wales"
        [entryAlpha, entryBeta, entryGamma]).length :=
  (c10_heatmap_filtered_summary "New South Wales"
    [entryAlpha, entryBeta, entryGamma]
    { num_institutions := 2, min_risk := 3, max_risk := 5
    , best_institution_name := "Beta"
    , worst_institution_name := "Alpha" } (by decide)).1

end CourseSurvival
